import Mathlib

/-!
Verification of the editable-grid state machine and the simulated
token-streaming display of the restaurant admin dashboard.

The embedding follows the source closely:
- `EditableTable` (cell edit / save / cancel / add-row state) from
  src/unnamed/part_002;
- the dashboard persistence handlers `addMenuItem`, `updateMenuItem`,
  `deleteMenuItem` from src/unnamed/part_003;
- the `PATCH /api/menu-items/[id]` route handler concatenated into
  src/FE/app/layout.tsx (lines 46-78);
- the chat form `sendMessage` from src/FE/components/chat-form.tsx.

JavaScript objects keyed by strings are embedded as association lists,
`Set<string>` as deduplicated `List String`, and strings revealed
character-by-character as `List Char` (one entry per Unicode character,
so a multi-byte character is a single display unit).  Asynchronous
persistence calls are embedded by passing their outcome (success payload
or failure) as an explicit parameter to the operation.
-/

namespace Chatbot

/-- A persisted record: an identifier assigned by the store plus a
string-keyed field map (menu item: name/price/description; restaurant
detail: details/description).  Matches the generic `any` rows handed to
`EditableTable`. -/
structure Rec where
  id : String
  fields : List (String × String)
deriving DecidableEq, Repr

/-- Association-list lookup, embedding JavaScript property access
`obj[key]` (returns `none` for a missing key). -/
def assocGet : List (String × String) → String → Option String
  | [], _ => none
  | (k', v) :: rest, k => if k' = k then some v else assocGet rest k

/-- Association-list assignment, embedding `obj[key] = value`. -/
def assocSet : List (String × String) → String → String → List (String × String)
  | [], k, v => [(k, v)]
  | (k', v') :: rest, k, v =>
    if k' = k then (k, v) :: rest else (k', v') :: assocSet rest k v

/-- Embeds the idiom `obj[key] || ""` used throughout the table code:
a missing key (and the empty string itself) reads as `""`. -/
def valueOf (m : List (String × String)) (k : String) : String :=
  (assocGet m k).getD ""

/-- Whitespace trimming on a character list: drop whitespace from both
ends. -/
def trimChars (s : List Char) : List Char :=
  (((s.dropWhile Char.isWhitespace).reverse).dropWhile Char.isWhitespace).reverse

/-- Embeds JavaScript `value.trim()` (removal of leading and trailing
whitespace), working on the string's character list. -/
def strTrim (s : String) : String :=
  ⟨trimChars s.data⟩

/-- Whether the first list starts with the second. -/
def leadsWith : List Char → List Char → Bool
  | _, [] => true
  | [], _ :: _ => false
  | a :: l, b :: p => a == b && leadsWith l p

/-- Whether the second list occurs contiguously inside the first. -/
def hasSub : List Char → List Char → Bool
  | [], p => leadsWith [] p
  | a :: t, p => leadsWith (a :: t) p || hasSub t p

/-- Substring occurrence on strings: `mentions msg sub` is true iff
`sub` occurs in `msg` (used to ask whether an error message names a
field). -/
def mentions (msg sub : String) : Bool :=
  hasSub msg.data sub.data

/-- Field access on a record, embedding `item[column.key] || ""`. -/
def getField (r : Rec) (k : String) : String :=
  valueOf r.fields k

/-- Record with one field overwritten (used to model the persistence
collaborator returning the patched record). -/
def setField (r : Rec) (k v : String) : Rec :=
  ⟨r.id, assocSet r.fields k v⟩

/-- `data.find((item) => item.id === id)` / the dashboard's per-id
lookups: the first record with the given id, if any. -/
def findRec : List Rec → String → Option Rec
  | [], _ => none
  | r :: rest, id => if r.id = id then some r else findRec rest id

/-- A column descriptor from the caller-supplied schema
(`{key, label, type, placeholder}`). -/
structure Column where
  key : String
  label : String
  isTextarea : Bool
  placeholder : String
deriving DecidableEq, Repr

/-- `getCellKey` from part_002: cell keys are the string `id ++ "-" ++ field`. -/
def getCellKey (id field : String) : String :=
  id ++ "-" ++ field

/-- Embeds `new Set([...prev, x])`: appends `x` unless already present,
keeping the list duplicate-free. -/
def setInsert (l : List String) (k : String) : List String :=
  if k ∈ l then l else l ++ [k]

/-- The `EditableTable` component state: `editingCells`, `cellValues`,
`newRow`, `isAddingRow`, `loadingCells` (part_002 lines 56-60). -/
structure TableState where
  editingCells : List String
  cellValues : List (String × String)
  newRow : List (String × String)
  isAddingRow : Bool
  loadingCells : List String
deriving DecidableEq, Repr

/-- Toast variant (`variant: "destructive"` marks error notices). -/
inductive ToastVariant
  | default
  | destructive
deriving DecidableEq, Repr

/-- A toast notice as passed to `useToast` (title, description, variant). -/
structure Toast where
  title : String
  description : String
  variant : ToastVariant
deriving DecidableEq, Repr

def errorTitle (en : Bool) : String := if en then "Error" else "錯誤"

def successTitle (en : Bool) : String := if en then "Success" else "成功"

/-- The validation toast in `saveCellValue` (part_002 lines 117-121). -/
def emptyFieldToast (en : Bool) : Toast :=
  ⟨errorTitle en, if en then "Field cannot be empty" else "欄位不能為空", .destructive⟩

/-- The success toast in `saveCellValue` (part_002 lines 130-133). -/
def updateSuccessToast (en : Bool) : Toast :=
  ⟨successTitle en, if en then "Updated successfully" else "更新成功", .default⟩

/-- The failure toast in `saveCellValue` (part_002 lines 136-140). -/
def updateFailToast (en : Bool) : Toast :=
  ⟨errorTitle en, if en then "Failed to update" else "更新失敗", .destructive⟩

/-- The validation toast in `addNewRow` (part_002 lines 184-189). -/
def fillAllFieldsToast (en : Bool) : Toast :=
  ⟨errorTitle en, if en then "Please fill all fields" else "請填寫所有欄位", .destructive⟩

/-- The success toast in `addNewRow` (part_002 lines 196-199). -/
def addSuccessToast (en : Bool) : Toast :=
  ⟨successTitle en, if en then "Added successfully" else "新增成功", .default⟩

/-- The failure toast in `addNewRow` (part_002 lines 202-206). -/
def addFailToast (en : Bool) : Toast :=
  ⟨errorTitle en, if en then "Failed to add" else "新增失敗", .destructive⟩

/-- `startEditing` (part_002 lines 79-93), without the focus side effect. -/
def startEditing (st : TableState) (id field : String) : TableState :=
  { st with editingCells := setInsert st.editingCells (getCellKey id field) }

/-- `stopEditing` (part_002 lines 95-102). -/
def stopEditing (st : TableState) (id field : String) : TableState :=
  { st with editingCells := st.editingCells.erase (getCellKey id field) }

/-- `handleCellChange` (part_002 lines 104-110). -/
def handleCellChange (st : TableState) (id field value : String) : TableState :=
  { st with cellValues := assocSet st.cellValues (getCellKey id field) value }

/-- Outcome of the `PATCH /api/menu-items/[id]` request made by
`updateMenuItem`: `ok` carries the parsed `updatedItem` body. -/
inductive UpdOutcome
  | ok (updated : Rec)
  | err
deriving DecidableEq, Repr

/-- `updateMenuItem` (part_003 lines 214-229): on a successful response
every collection entry whose id matches is replaced by the returned
record; a failed response throws (`none`). -/
def updateMenuItem (items : List Rec) (id : String) (outcome : UpdOutcome) :
    Option (List Rec) :=
  match outcome with
  | .ok u => some (items.map fun it => if it.id = id then u else it)
  | .err => none

/-- Result of one `saveCellValue` run: the table state and collection
afterwards, whether the persistence collaborator's update was invoked,
and the toasts emitted. -/
structure SaveResult where
  table : TableState
  items : List Rec
  persistCalled : Bool
  toasts : List Toast
deriving DecidableEq, Repr

/-- `saveCellValue` (part_002 lines 112-148) wired to the dashboard's
`updateMenuItem` as `onUpdate`.  The pending value is read with
`cellValues[cellKey] || ""`; an empty trimmed value aborts with a
validation toast before any persistence call; otherwise the cell joins
`loadingCells`, the update runs, success stops editing, and the
`finally` block removes the cell from `loadingCells` on both paths. -/
def saveCellValue (items : List Rec) (st : TableState) (id field : String)
    (outcome : UpdOutcome) (en : Bool) : SaveResult :=
  let key := getCellKey id field
  let value := valueOf st.cellValues key
  if strTrim value = "" then
    { table := st, items := items, persistCalled := false,
      toasts := [emptyFieldToast en] }
  else
    let st1 := { st with loadingCells := setInsert st.loadingCells key }
    match updateMenuItem items id outcome with
    | some items' =>
      let st2 := { st1 with editingCells := st1.editingCells.erase key }
      { table := { st2 with loadingCells := st2.loadingCells.erase key },
        items := items', persistCalled := true,
        toasts := [updateSuccessToast en] }
    | none =>
      { table := { st1 with loadingCells := st1.loadingCells.erase key },
        items := items, persistCalled := true,
        toasts := [updateFailToast en] }

/-- The field allowlist of the `PATCH /api/menu-items/[id]` route
handler (src/FE/app/layout.tsx line 56): only these fields may be
updated. -/
def allowedFields : List String :=
  ["name", "price", "description"]

/-- The `PATCH /api/menu-items/[id]` route handler
(src/FE/app/layout.tsx lines 46-78): a missing (falsy) id or field is a
400, a field outside `allowedFields` is a 400, and otherwise the store
updates `{[field]: value}` on the row with that id and returns the
patched record — `.single()` fails (500) when no row with that id
exists.  The hosted store itself is the external collaborator; its
update-and-return-row call is embedded as patching the record in the
in-memory list. -/
def serverUpdate (items : List Rec) (id field value : String) : UpdOutcome :=
  if id = "" ∨ field = "" then .err
  else if field ∉ allowedFields then .err
  else
    match findRec items id with
    | some r => .ok (setField r field value)
    | none => .err

/-- `saveCellValue` wired through the real PATCH route handler
(`serverUpdate`), i.e. the full commit-then-persist path of claim C1. -/
def saveCellMenu (items : List Rec) (st : TableState) (id field : String)
    (en : Bool) : SaveResult :=
  saveCellValue items st id field
    (serverUpdate items id field (strTrim (valueOf st.cellValues (getCellKey id field)))) en

/-- `cancelEdit` (part_002 lines 150-161): restore the pending value
from the record currently in `data` (if any), then stop editing.  No
persistence call is made and the collection is untouched. -/
def cancelEdit (items : List Rec) (st : TableState) (id field : String) :
    SaveResult :=
  let key := getCellKey id field
  let st' :=
    match findRec items id with
    | some r => { st with cellValues := assocSet st.cellValues key (getField r field) }
    | none => st
  { table := { st' with editingCells := st'.editingCells.erase key },
    items := items, persistCalled := false, toasts := [] }

/-- `missingFields` in `addNewRow` (part_002 line 182): schema columns
whose draft field is absent or trims to empty
(`columns.filter((col) => !newRow[col.key]?.trim())`). -/
def missingFields (cols : List Column) (newRow : List (String × String)) :
    List Column :=
  cols.filter (fun c => strTrim (valueOf newRow c.key) = "")

/-- Result of one `addNewRow` run. -/
structure AddResult where
  table : TableState
  items : List Rec
  persistCalled : Bool
  toasts : List Toast
deriving DecidableEq, Repr

/-- `addNewRow` (part_002 lines 180-208) wired to the dashboard's
`addMenuItem` (part_003 lines 197-212) as `onAdd`.  If any schema column
is missing a validation toast is emitted and nothing else happens;
otherwise the create request runs (`outcome` is its parsed response
body, `none` on failure): success prepends the created record and
clears the draft, failure emits an error toast and leaves the draft. -/
def addNewRow (items : List Rec) (st : TableState) (cols : List Column)
    (outcome : Option Rec) (en : Bool) : AddResult :=
  if missingFields cols st.newRow ≠ [] then
    { table := st, items := items, persistCalled := false,
      toasts := [fillAllFieldsToast en] }
  else
    match outcome with
    | some newItem =>
      { table := { st with newRow := [], isAddingRow := false },
        items := newItem :: items, persistCalled := true,
        toasts := [addSuccessToast en] }
    | none =>
      { table := st, items := items, persistCalled := true,
        toasts := [addFailToast en] }

/-- Result of one delete-button click. -/
structure DeleteResult where
  items : List Rec
  toasts : List Toast
  unhandledError : Bool
deriving DecidableEq, Repr

/-- The delete path: the table's delete button calls `onDelete(item.id)`
directly with no try/catch (part_002 lines 362-371), and
`deleteMenuItem` (part_003 lines 231-241) filters the record out on a
successful response or throws on failure.  The thrown error is caught
nowhere, so no toast is emitted on either path; a failure surfaces only
as an unhandled rejection. -/
def deleteFlow (items : List Rec) (id : String) (ok : Bool) : DeleteResult :=
  if ok then
    { items := items.filter (fun it => it.id ≠ id), toasts := [],
      unhandledError := false }
  else
    { items := items, toasts := [], unhandledError := true }

/-- The `useEffect` initializer (part_002 lines 66-75): rebuilds the
whole `cellValues` object from `data` and `columns`, one assignment per
(row, column) pair. -/
def initCellValues (data : List Rec) (cols : List Column) :
    List (String × String) :=
  data.foldl
    (fun acc item =>
      cols.foldl
        (fun acc2 c => assocSet acc2 (getCellKey item.id c.key) (getField item c.key))
        acc)
    []

/-- The effect of a `data` (or `columns`) change on the table state: the
pending values of every cell are replaced wholesale by the freshly
initialized map. -/
def applyDataEffect (st : TableState) (data : List Rec) (cols : List Column) :
    TableState :=
  { st with cellValues := initCellValues data cols }

end Chatbot

namespace Chatbot

/-! ### The per-cell commit event system (claim C3)

`renderCell` (part_002 lines 221-258) disables the cell's input and its
save/cancel buttons while `loadingCells.has(cellKey)`, so a commit on a
cell can only start while that cell is not loading; `saveCellValue`
synchronously adds the cell to `loadingCells` before awaiting the
update.  The step relation below records the set of outstanding
(in-flight) persistence updates explicitly. -/

/-- A system state: the table state, the record collection, and the
multiset of cell keys with an outstanding persistence update. -/
structure Sys where
  table : TableState
  items : List Rec
  inflight : List String
deriving Repr

/-- One UI / resolution event of the cell-editing machine.  Events that
originate from a cell's edit controls carry the guard that the cell is
not in `loadingCells`, because `renderCell` renders those controls
disabled while it is. -/
inductive Step : Sys → Sys → Prop
  | startEdit (s : Sys) (id field : String) :
      Step s { s with table := startEditing s.table id field }
  | change (s : Sys) (id field v : String)
      (hnl : getCellKey id field ∉ s.table.loadingCells) :
      Step s { s with table := handleCellChange s.table id field v }
  | cancel (s : Sys) (id field : String)
      (hnl : getCellKey id field ∉ s.table.loadingCells) :
      Step s { s with table := (cancelEdit s.items s.table id field).table }
  | commitStart (s : Sys) (id field : String)
      (hnl : getCellKey id field ∉ s.table.loadingCells)
      (hv : strTrim (valueOf s.table.cellValues (getCellKey id field)) ≠ "") :
      Step s { s with
        table := { s.table with
          loadingCells := setInsert s.table.loadingCells (getCellKey id field) },
        inflight := getCellKey id field :: s.inflight }
  | commitInvalid (s : Sys) (id field : String)
      (hnl : getCellKey id field ∉ s.table.loadingCells)
      (hv : strTrim (valueOf s.table.cellValues (getCellKey id field)) = "") :
      Step s s
  | commitResolveOk (s : Sys) (id field : String) (u : Rec)
      (hin : getCellKey id field ∈ s.inflight) :
      Step s { s with
        table := { s.table with
          editingCells := s.table.editingCells.erase (getCellKey id field),
          loadingCells := s.table.loadingCells.erase (getCellKey id field) },
        items := s.items.map (fun it => if it.id = id then u else it),
        inflight := s.inflight.erase (getCellKey id field) }
  | commitResolveErr (s : Sys) (id field : String)
      (hin : getCellKey id field ∈ s.inflight) :
      Step s { s with
        table := { s.table with
          loadingCells := s.table.loadingCells.erase (getCellKey id field) },
        inflight := s.inflight.erase (getCellKey id field) }

/-- The table state on mount: empty edit/loading sets, cell values
initialized from the loaded data by the `useEffect`. -/
def initTable (data : List Rec) (cols : List Column) : TableState :=
  { editingCells := [], cellValues := initCellValues data cols,
    newRow := [], isAddingRow := false, loadingCells := [] }

/-- States reachable from a freshly mounted table by the events above. -/
inductive Reachable : Sys → Prop
  | init (data : List Rec) (cols : List Column) :
      Reachable ⟨initTable data cols, data, []⟩
  | step {s s' : Sys} : Reachable s → Step s s' → Reachable s'

/-- The commit invariant: in-flight commits are pairwise distinct and
each is marked in `loadingCells`. -/
def Inv (s : Sys) : Prop :=
  s.inflight.Nodup ∧ ∀ k ∈ s.inflight, k ∈ s.table.loadingCells

/-! ### The chat form and the stream renderer -/

/-- Message role (`"user"` / `"assistant"`). -/
inductive Role
  | user
  | assistant
deriving DecidableEq, Repr

/-- A `StreamingMessage` from chat-form.tsx: role, content, and the
`isStreaming` / `isLoadingDots` flags (absent flags read as false). -/
structure Msg where
  role : Role
  content : String
  isStreaming : Bool
  isLoadingDots : Bool
deriving DecidableEq, Repr

/-- Modelled from the spec: `streamTextByChar` from lib/stream-text is
not among the source files (only its call site in chat-form.tsx is).
Per the spec, `reveal(text, perCharacterDelay)` yields the finite
sequence of growing display-character prefixes of `text` — each element
one displayable character longer than the previous, the last equal to
`text`, and zero elements for the empty string.  Text is a `List Char`
(one entry per Unicode character, so a multi-byte character is one
unit); the delay only paces emission and does not affect the sequence. -/
def streamTextByChar (s : List Char) (_delay : Nat) : List (List Char) :=
  (List.range s.length).map (fun i => s.take (i + 1))

/-- The static error content of the catch branch
(chat-form.tsx lines 121-127). -/
def chatErrText (en : Bool) : String :=
  if en then "Sorry, an error occurred. Please try again." else "抱歉，發生錯誤，請再試一次。"

/-- `sendMessage` (chat-form.tsx lines 32-140).  The fetch outcome is
passed explicitly: `some text` is a successful response body, `none` a
failed request (non-ok status or thrown error before streaming).  The
returned flag records whether `streamTextByChar` was invoked.  The
sequence of `setMessages` updates is reproduced: append the user
message, append the loading-dots assistant message, then either stream
the response into the assistant slot and clear `isStreaming`, or (catch
branch) replace the assistant slot by a static error message with both
flags cleared. -/
def sendMessage (prev : List Msg) (content : String) (en : Bool)
    (outcome : Option String) : List Msg × Bool :=
  if strTrim content = "" then (prev, false)
  else
    let m1 := prev ++ [⟨Role.user, content, false, false⟩]
    let idx := m1.length
    let m2 := m1 ++ [⟨Role.assistant, "", false, true⟩]
    match outcome with
    | some text =>
      let m3 := m2.set idx ⟨Role.assistant, "", true, false⟩
      let m4 := (streamTextByChar text.toList 15).foldl
        (fun acc p => acc.set idx ⟨Role.assistant, String.mk p, true, false⟩) m3
      let mf :=
        match m4.get? idx with
        | some m => m4.set idx { m with isStreaming := false }
        | none => m4
      (mf, true)
    | none =>
      (m2.set idx ⟨Role.assistant, chatErrText en, false, false⟩, false)

/-! ### Concrete instances used to exercise the theorems -/

/-- The English menu-item schema from part_003 lines 302-321. -/
def menuColsEn : List Column :=
  [⟨"name", "Item Name", false, "Limited Item - Coffee Milk Liquor"⟩,
   ⟨"price", "Price", false, "NT.100"⟩,
   ⟨"description", "Description", true, "Coffee-flavored milk liquor"⟩]

/-- A one-record collection. -/
def dataW : List Rec :=
  [⟨"m1", [("name", "Shoyu Ramen"), ("price", "NT.100"), ("description", "Classic")]⟩]

/-- The system state of a freshly mounted table over `dataW`. -/
def sysW0 : Sys := ⟨initTable dataW menuColsEn, dataW, []⟩

/-- `sysW0` after a commit on the price cell of record `m1` has started
and is still outstanding. -/
def sysW1 : Sys :=
  { sysW0 with
    table := { sysW0.table with
      loadingCells := setInsert sysW0.table.loadingCells (getCellKey "m1" "price") },
    inflight := getCellKey "m1" "price" :: sysW0.inflight }

/-- A draft row missing the `price` field of the menu schema. -/
def stDraftMissing : TableState :=
  ⟨[], [], [("name", "Ramen"), ("description", "Rich broth")], true, []⟩

/-- A fully-filled draft row for the menu schema. -/
def stDraftFull : TableState :=
  ⟨[], [], [("name", "Ramen"), ("price", "NT.200"), ("description", "Rich broth")], true, []⟩

/-- The record the store would return for `stDraftFull`, with its
assigned identifier. -/
def recNew : Rec :=
  ⟨"m9", [("name", "Ramen"), ("price", "NT.200"), ("description", "Rich broth")]⟩

/-! ### Basic lemmas about the embedded containers -/

theorem assocGet_assocSet_self (m : List (String × String)) (k v : String) :
    assocGet (assocSet m k v) k = some v := by
  induction m with
  | nil => simp [assocSet, assocGet]
  | cons p rest ih =>
    obtain ⟨k', v'⟩ := p
    by_cases h : k' = k
    · simp [assocSet, h, assocGet]
    · simp [assocSet, h, assocGet, ih]

theorem valueOf_assocSet_self (m : List (String × String)) (k v : String) :
    valueOf (assocSet m k v) k = v := by
  simp [valueOf, assocGet_assocSet_self]

theorem getField_setField (r : Rec) (k v : String) :
    getField (setField r k v) k = v := by
  simp [getField, setField, valueOf_assocSet_self]

theorem mem_setInsert_self (l : List String) (k : String) : k ∈ setInsert l k := by
  unfold setInsert
  by_cases h : k ∈ l <;> simp [h]

theorem mem_setInsert_of_mem {l : List String} {a : String} (k : String)
    (h : a ∈ l) : a ∈ setInsert l k := by
  unfold setInsert
  by_cases hk : k ∈ l <;> simp [h, hk]

theorem setInsert_erase (l : List String) (k : String) :
    (setInsert l k).erase k = l.erase k := by
  unfold setInsert
  by_cases h : k ∈ l
  · simp [h]
  · have h1 : l.erase k = l := List.erase_of_not_mem h
    simp [h, h1, List.erase_append, List.erase_cons]

theorem findRec_id {items : List Rec} {id : String} {r : Rec}
    (h : findRec items id = some r) : r.id = id := by
  induction items with
  | nil => simp [findRec] at h
  | cons a rest ih =>
    by_cases ha : a.id = id
    · simp [findRec, ha] at h
      rw [← h]; exact ha
    · simp [findRec, ha] at h
      exact ih h

theorem findRec_mem {items : List Rec} {id : String} {r : Rec}
    (h : findRec items id = some r) : r ∈ items := by
  induction items with
  | nil => simp [findRec] at h
  | cons a rest ih =>
    by_cases ha : a.id = id
    · simp [findRec, ha] at h
      simp [h]
    · simp [findRec, ha] at h
      simp [ih h]

theorem findRec_map_replace (items : List Rec) (id : String) (u : Rec)
    (hu : u.id = id) {r : Rec} (h : findRec items id = some r) :
    findRec (items.map fun it => if it.id = id then u else it) id = some u := by
  induction items with
  | nil => simp [findRec] at h
  | cons a rest ih =>
    by_cases ha : a.id = id
    · simp [findRec, ha, hu]
    · simp only [findRec, ha, if_false] at h
      simp [findRec, ha, ih h]

theorem assocGet_assocSet_ne (m : List (String × String)) (k v k' : String)
    (h : k ≠ k') : assocGet (assocSet m k v) k' = assocGet m k' := by
  induction m with
  | nil => simp [assocSet, assocGet, h]
  | cons p rest ih =>
    obtain ⟨a, b⟩ := p
    by_cases hak : a = k
    · subst hak
      simp [assocSet, assocGet, h]
    · simp [assocSet, assocGet, hak, ih]

theorem assocGet_foldl_writes {α : Type} (l : List α) (key val : α → String)
    (acc : List (String × String)) (K V : String)
    (hall : ∀ a ∈ l, key a = K → val a = V) :
    assocGet (l.foldl (fun m a => assocSet m (key a) (val a)) acc) K
      = if l.any (fun a => key a == K) then some V else assocGet acc K := by
  induction l generalizing acc with
  | nil => simp
  | cons a t ih =>
    rw [List.foldl_cons,
      ih (assocSet acc (key a) (val a)) (fun b hb => hall b (List.mem_cons_of_mem a hb))]
    by_cases hka : key a = K
    · have hv : val a = V := hall a (List.mem_cons_self a t) hka
      by_cases ht : t.any (fun b => key b == K)
      · simp [ht, hka]
      · simp [ht, hka, hv, assocGet_assocSet_self]
    · by_cases ht : t.any (fun b => key b == K)
      · simp [ht, hka]
      · simp [ht, hka, assocGet_assocSet_ne acc (key a) (val a) K hka]

theorem assocGet_initCellValues (data : List Rec) (cols : List Column)
    (acc : List (String × String)) (K V : String)
    (hall : ∀ it ∈ data, ∀ c ∈ cols, getCellKey it.id c.key = K → getField it c.key = V) :
    assocGet (data.foldl
        (fun acc2 item => cols.foldl
          (fun m c => assocSet m (getCellKey item.id c.key) (getField item c.key)) acc2)
        acc) K
      = if data.any (fun it => cols.any (fun c => getCellKey it.id c.key == K))
        then some V else assocGet acc K := by
  induction data generalizing acc with
  | nil => simp
  | cons it t ih =>
    rw [List.foldl_cons, ih _ (fun b hb => hall b (List.mem_cons_of_mem it hb))]
    rw [assocGet_foldl_writes cols (fun c => getCellKey it.id c.key)
      (fun c => getField it c.key) acc K V (fun c hc => hall it (List.mem_cons_self it t) c hc)]
    by_cases hc : cols.any (fun c => getCellKey it.id c.key == K) <;>
      by_cases ht : t.any (fun b => cols.any (fun c => getCellKey b.id c.key == K)) <;>
      simp [hc, ht]

/-! ### Claim theorems -/

/-- C2: `saveCellValue` with a pending value that is empty or
whitespace-only never invokes the persistence collaborator's update
operation, signals a destructive validation toast ("Field cannot be
empty"), and leaves the table state — in particular the cell's editing
flag, which therefore stays true — and the collection untouched. -/
theorem saveCellValue_empty_rejected (items : List Rec) (st : TableState)
    (id field : String) (outcome : UpdOutcome) (en : Bool)
    (h : strTrim (valueOf st.cellValues (getCellKey id field)) = "") :
    (saveCellValue items st id field outcome en).persistCalled = false ∧
    (saveCellValue items st id field outcome en).toasts = [emptyFieldToast en] ∧
    (emptyFieldToast en).variant = ToastVariant.destructive ∧
    (saveCellValue items st id field outcome en).table = st ∧
    (saveCellValue items st id field outcome en).items = items ∧
    (getCellKey id field ∈ st.editingCells →
      getCellKey id field ∈ (saveCellValue items st id field outcome en).table.editingCells) := by
  simp [saveCellValue, h, emptyFieldToast]

/-- Witness for C2: a whitespace-only pending price on record `m1`
while that cell is in editing state. -/
theorem saveCellValue_empty_rejected_witness :
    strTrim (valueOf [(getCellKey "m1" "price", "   ")] (getCellKey "m1" "price")) = "" ∧
    (saveCellValue dataW
        ⟨[getCellKey "m1" "price"], [(getCellKey "m1" "price", "   ")], [], false, []⟩
        "m1" "price" UpdOutcome.err true).persistCalled = false :=
  ⟨by decide,
   (saveCellValue_empty_rejected dataW
      ⟨[getCellKey "m1" "price"], [(getCellKey "m1" "price", "   ")], [], false, []⟩
      "m1" "price" UpdOutcome.err true (by decide)).1⟩

/-- C10: every `saveCellValue` run that reaches the persistence call —
whether the update succeeds or fails — ends with the cell removed from
the saving (loading) set, so no cell stays permanently marked as
saving. -/
theorem saveCellValue_clears_loading (items : List Rec) (st : TableState)
    (id field : String) (outcome : UpdOutcome) (en : Bool)
    (hnd : st.loadingCells.Nodup)
    (hv : strTrim (valueOf st.cellValues (getCellKey id field)) ≠ "") :
    (saveCellValue items st id field outcome en).table.loadingCells
      = st.loadingCells.erase (getCellKey id field) ∧
    getCellKey id field ∉ (saveCellValue items st id field outcome en).table.loadingCells := by
  have heq : (saveCellValue items st id field outcome en).table.loadingCells
      = st.loadingCells.erase (getCellKey id field) := by
    cases outcome <;> simp [saveCellValue, hv, updateMenuItem, setInsert_erase]
  refine ⟨heq, ?_⟩
  rw [heq]
  exact hnd.not_mem_erase

/-- Witness for C10: a failing update on the price cell of `m1` leaves
the loading set empty. -/
theorem saveCellValue_clears_loading_witness :
    ([] : List String).Nodup ∧
    strTrim (valueOf [(getCellKey "m1" "price", "NT.120")] (getCellKey "m1" "price")) ≠ "" ∧
    getCellKey "m1" "price" ∉
      (saveCellValue dataW
        ⟨[getCellKey "m1" "price"], [(getCellKey "m1" "price", "NT.120")], [], false, []⟩
        "m1" "price" UpdOutcome.err true).table.loadingCells :=
  ⟨by decide, by decide,
   (saveCellValue_clears_loading dataW
      ⟨[getCellKey "m1" "price"], [(getCellKey "m1" "price", "NT.120")], [], false, []⟩
      "m1" "price" UpdOutcome.err true (by decide) (by decide)).2⟩

/-- C6: `cancelEdit` restores the cell's pending value to the
authoritative value of the record currently in the collection, clears
the cell's editing flag, emits no toast, and makes no persistence call
(the collection is returned untouched). -/
theorem cancelEdit_restores_and_clears (items : List Rec) (st : TableState)
    (id field : String) (r : Rec)
    (hnd : st.editingCells.Nodup)
    (hr : findRec items id = some r) :
    valueOf (cancelEdit items st id field).table.cellValues (getCellKey id field)
      = getField r field ∧
    getCellKey id field ∉ (cancelEdit items st id field).table.editingCells ∧
    (cancelEdit items st id field).persistCalled = false ∧
    (cancelEdit items st id field).items = items ∧
    (cancelEdit items st id field).toasts = [] := by
  simp [cancelEdit, hr, valueOf_assocSet_self, hnd.not_mem_erase]

/-- Witness for C6: cancelling an edit of `m1`'s price cell after
typing `"garbage"` restores `"NT.100"` and clears the editing flag. -/
theorem cancelEdit_restores_and_clears_witness :
    ([getCellKey "m1" "price"] : List String).Nodup ∧
    findRec dataW "m1" = some
      ⟨"m1", [("name", "Shoyu Ramen"), ("price", "NT.100"), ("description", "Classic")]⟩ ∧
    valueOf (cancelEdit dataW
        ⟨[getCellKey "m1" "price"], [(getCellKey "m1" "price", "garbage")], [], false, []⟩
        "m1" "price").table.cellValues (getCellKey "m1" "price")
      = getField ⟨"m1", [("name", "Shoyu Ramen"), ("price", "NT.100"), ("description", "Classic")]⟩ "price" :=
  ⟨by decide, by decide,
   (cancelEdit_restores_and_clears dataW
      ⟨[getCellKey "m1" "price"], [(getCellKey "m1" "price", "garbage")], [], false, []⟩
      "m1" "price" _ (by decide) (by decide)).1⟩

/-- C5 counterexample: when the delete request for record `m1` fails,
the record does remain in the collection, but no toast of any kind —
in particular no destructive error notice — is emitted: the thrown
error is caught nowhere on the delete path. -/
theorem deleteFlow_failure_no_notice_counterexample :
    (deleteFlow dataW "m1" false).items = dataW ∧
    (deleteFlow dataW "m1" false).toasts = [] ∧
    (¬ ∃ t ∈ (deleteFlow dataW "m1" false).toasts, t.variant = ToastVariant.destructive) ∧
    (deleteFlow dataW "m1" false).unhandledError = true := by
  refine ⟨rfl, rfl, ?_, rfl⟩
  simp [deleteFlow]

/-- C5 amended: when the persistence collaborator's delete operation
fails, the record remains in the in-memory collection, but no error
notice is surfaced to the user — the rejection goes unhandled. -/
theorem deleteFlow_failure_keeps_record (items : List Rec) (id : String) :
    (deleteFlow items id false).items = items ∧
    (deleteFlow items id false).toasts = [] ∧
    (deleteFlow items id false).unhandledError = true := by
  simp [deleteFlow]

/-- C1: committing a cell whose pending value trims to something
non-empty, for a non-empty record id and a field on the PATCH handler's
allowlist — the conditions under which the persistence update succeeds
and returns the patched record — leaves the authoritative value of
that record's field equal to the trimmed pending value, clears the
cell's editing flag, and reports success. -/
theorem saveCellMenu_success_updates_authoritative (items : List Rec)
    (st : TableState) (id field : String) (en : Bool) (r : Rec)
    (hnd : st.editingCells.Nodup)
    (hr : findRec items id = some r)
    (hid : id ≠ "")
    (hf : field ∈ allowedFields)
    (hv : strTrim (valueOf st.cellValues (getCellKey id field)) ≠ "") :
    (findRec (saveCellMenu items st id field en).items id).map (fun u => getField u field)
      = some (strTrim (valueOf st.cellValues (getCellKey id field))) ∧
    getCellKey id field ∉ (saveCellMenu items st id field en).table.editingCells ∧
    (saveCellMenu items st id field en).persistCalled = true ∧
    (saveCellMenu items st id field en).toasts = [updateSuccessToast en] := by
  have hrid : r.id = id := findRec_id hr
  have hfne : field ≠ "" := by
    intro h
    rw [h] at hf
    simp [allowedFields] at hf
  have hser : serverUpdate items id field (strTrim (valueOf st.cellValues (getCellKey id field)))
      = UpdOutcome.ok (setField r field (strTrim (valueOf st.cellValues (getCellKey id field)))) := by
    simp [serverUpdate, hid, hfne, hf, hr]
  have hfind := findRec_map_replace items id
      (setField r field (strTrim (valueOf st.cellValues (getCellKey id field))))
      (by simp [setField, hrid]) hr
  unfold saveCellMenu
  rw [hser]
  simp [saveCellValue, hv, updateMenuItem, hfind, getField_setField, hnd.not_mem_erase]

/-- Witness for C1: committing the pending price `" NT.120 "` on record
`m1` (with `"price"` on the handler's allowlist) makes the record's
price the trimmed `"NT.120"`. -/
theorem saveCellMenu_success_witness :
    ([getCellKey "m1" "price"] : List String).Nodup ∧
    findRec dataW "m1" = some
      ⟨"m1", [("name", "Shoyu Ramen"), ("price", "NT.100"), ("description", "Classic")]⟩ ∧
    ("m1" : String) ≠ "" ∧
    "price" ∈ allowedFields ∧
    strTrim (valueOf [(getCellKey "m1" "price", " NT.120 ")] (getCellKey "m1" "price")) ≠ "" ∧
    (findRec (saveCellMenu dataW
        ⟨[getCellKey "m1" "price"], [(getCellKey "m1" "price", " NT.120 ")], [], false, []⟩
        "m1" "price" true).items "m1").map (fun u => getField u "price")
      = some (strTrim (valueOf [(getCellKey "m1" "price", " NT.120 ")] (getCellKey "m1" "price"))) :=
  ⟨by decide, by decide, by decide, by decide, by decide,
   (saveCellMenu_success_updates_authoritative dataW
      ⟨[getCellKey "m1" "price"], [(getCellKey "m1" "price", " NT.120 ")], [], false, []⟩
      "m1" "price" true
      ⟨"m1", [("name", "Shoyu Ramen"), ("price", "NT.100"), ("description", "Classic")]⟩
      (by decide) (by decide) (by decide) (by decide) (by decide)).1⟩

/-- C4 counterexample: with the menu schema and a draft missing only the
`price` field, `addNewRow` does abort without persisting, but its
validation toast is the fixed text "Please fill all fields", which does
not name the missing field (neither its key `price` nor its label
`Price` occurs in the message). -/
theorem addNewRow_not_naming_missing_counterexample :
    missingFields menuColsEn stDraftMissing.newRow = [⟨"price", "Price", false, "NT.100"⟩] ∧
    (addNewRow [] stDraftMissing menuColsEn none true).toasts
      = [⟨"Error", "Please fill all fields", ToastVariant.destructive⟩] ∧
    mentions "Please fill all fields" "price" = false ∧
    mentions "Please fill all fields" "Price" = false ∧
    (addNewRow [] stDraftMissing menuColsEn none true).persistCalled = false ∧
    (addNewRow [] stDraftMissing menuColsEn none true).items = [] := by
  decide

/-- C4 amended: if any schema column's draft field is empty after
trimming, `addNewRow` signals a generic validation error (a fixed
message that does not name the missing fields) and returns without
calling the persistence collaborator, leaving the draft row and the
collection unchanged; when every field is non-empty and the create
succeeds, the created record with its assigned identifier is prepended
to the collection and the draft is cleared. -/
theorem addNewRow_spec (items : List Rec) (st : TableState) (cols : List Column)
    (outcome : Option Rec) (en : Bool) :
    (missingFields cols st.newRow ≠ [] →
      (addNewRow items st cols outcome en).persistCalled = false ∧
      (addNewRow items st cols outcome en).toasts = [fillAllFieldsToast en] ∧
      (fillAllFieldsToast en).variant = ToastVariant.destructive ∧
      (addNewRow items st cols outcome en).table = st ∧
      (addNewRow items st cols outcome en).items = items) ∧
    (missingFields cols st.newRow = [] → ∀ u, outcome = some u →
      (addNewRow items st cols outcome en).items = u :: items ∧
      (addNewRow items st cols outcome en).table.newRow = [] ∧
      (addNewRow items st cols outcome en).table.isAddingRow = false ∧
      (addNewRow items st cols outcome en).persistCalled = true ∧
      (addNewRow items st cols outcome en).toasts = [addSuccessToast en]) := by
  constructor
  · intro h
    simp [addNewRow, h, fillAllFieldsToast]
  · intro h u hu
    subst hu
    simp [addNewRow, h]

/-- Witness for C4: the missing-`price` draft aborts unpersisted, and
the complete draft gets `recNew` prepended. -/
theorem addNewRow_spec_witness :
    (missingFields menuColsEn stDraftMissing.newRow ≠ [] ∧
      (addNewRow [] stDraftMissing menuColsEn none true).persistCalled = false) ∧
    (missingFields menuColsEn stDraftFull.newRow = [] ∧
      (addNewRow [] stDraftFull menuColsEn (some recNew) true).items = [recNew]) :=
  ⟨⟨by decide, ((addNewRow_spec [] stDraftMissing menuColsEn none true).1 (by decide)).1⟩,
   ⟨by decide, (((addNewRow_spec [] stDraftFull menuColsEn (some recNew) true).2 (by decide))
      recNew rfl).1⟩⟩

/-- C7: for any text `s` and delay `d`, `streamTextByChar s d` yields
exactly `s.length` elements; their lengths are `1, 2, ..., s.length`
(each element one display character longer than the previous); every
element is the corresponding leading part of `s`; the last element is
`s` itself when `s` is non-empty; and the empty text yields zero
elements, with no spurious empty element. -/
theorem streamTextByChar_reveal (s : List Char) (d : Nat) :
    (streamTextByChar s d).length = s.length ∧
    (streamTextByChar s d).map List.length = (List.range s.length).map (fun i => i + 1) ∧
    (streamTextByChar s d).getLast? = (if s.length = 0 then none else some s) ∧
    (streamTextByChar s d).all (fun p => p == s.take p.length) = true ∧
    streamTextByChar [] d = [] := by
  refine ⟨by simp [streamTextByChar], ?_, ?_, ?_, rfl⟩
  · unfold streamTextByChar
    rw [List.map_map]
    apply List.ext_getElem
    · simp
    · intro i h1 h2
      simp only [List.getElem_map, List.getElem_range, Function.comp_apply, List.length_take]
      have : i < s.length := by simpa using h1
      omega
  · by_cases hs : s = []
    · subst hs
      simp [streamTextByChar]
    · have hlen : s.length ≠ 0 := by simpa using hs
      obtain ⟨n, hn⟩ : ∃ n, s.length = n + 1 := ⟨s.length - 1, by omega⟩
      simp only [streamTextByChar, hn, List.range_succ, List.map_append, List.map_cons,
        List.map_nil, List.getLast?_concat, Nat.succ_ne_zero, if_false]
      rw [← hn, List.take_length]
  · rw [List.all_eq_true]
    intro p hp
    obtain ⟨i, hi, rfl⟩ := List.mem_map.mp hp
    have hilt : i < s.length := List.mem_range.mp hi
    have hl : (s.take (i + 1)).length = i + 1 := by
      simp only [List.length_take]
      omega
    rw [hl]
    exact beq_self_eq_true _

/-- C8: when the chat request fails, the stream renderer is never
invoked, and the assistant placeholder message transitions directly to
the static error string with both the loading-dots and streaming flags
cleared. -/
theorem sendMessage_failure_static_error (prev : List Msg) (content : String) (en : Bool)
    (h : strTrim content ≠ "") :
    (sendMessage prev content en none).2 = false ∧
    (sendMessage prev content en none).1
      = prev ++ [⟨Role.user, content, false, false⟩,
                 ⟨Role.assistant, chatErrText en, false, false⟩] := by
  refine ⟨by simp [sendMessage, h], ?_⟩
  simp [sendMessage, h]

/-- Witness for C8: a failed request for the message `"hi"` produces the
static error reply and no streaming. -/
theorem sendMessage_failure_witness :
    strTrim "hi" ≠ "" ∧ (sendMessage [] "hi" true none).2 = false :=
  ⟨by decide, (sendMessage_failure_static_error [] "hi" true (by decide)).1⟩

/-- C9: whenever the data collection handed to the editor changes, the
`useEffect` reinitializes every cell's pending value wholesale from the
authoritative record values: the resulting map does not depend on the
previous table state at all (uncommitted edits are discarded), and the
cell of any listed record and schema column reads that record's field
value. -/
theorem dataEffect_reinitializes (st stOther : TableState) (data : List Rec)
    (cols : List Column) (id field : String) (r : Rec)
    (hr : findRec data id = some r)
    (hnd : (data.map Rec.id).Nodup)
    (hfield : field ∈ cols.map Column.key)
    (halias : ∀ it ∈ data, ∀ c ∈ cols,
      getCellKey it.id c.key = getCellKey id field → it.id = id ∧ c.key = field) :
    valueOf (applyDataEffect st data cols).cellValues (getCellKey id field)
      = getField r field ∧
    (applyDataEffect st data cols).cellValues
      = (applyDataEffect stOther data cols).cellValues := by
  refine ⟨?_, rfl⟩
  have hrid : r.id = id := findRec_id hr
  have hrm : r ∈ data := findRec_mem hr
  obtain ⟨c0, hc0, hc0k⟩ := List.mem_map.mp hfield
  have hall : ∀ it ∈ data, ∀ c ∈ cols,
      getCellKey it.id c.key = getCellKey id field → getField it c.key = getField r field := by
    intro it hit c hc hk
    obtain ⟨hid, hck⟩ := halias it hit c hc hk
    have hitr : it = r := List.inj_on_of_nodup_map hnd hit hrm (by rw [hid, hrid])
    rw [hitr, hck]
  have hex : data.any
      (fun it => cols.any (fun c => getCellKey it.id c.key == getCellKey id field)) := by
    rw [List.any_eq_true]
    refine ⟨r, hrm, ?_⟩
    rw [List.any_eq_true]
    refine ⟨c0, hc0, ?_⟩
    rw [hrid, hc0k]
    exact beq_self_eq_true _
  show valueOf (initCellValues data cols) (getCellKey id field) = getField r field
  unfold valueOf initCellValues
  rw [assocGet_initCellValues data cols [] (getCellKey id field) (getField r field) hall]
  simp [hex]

/-- Witness for C9: after a data change, the price cell of `m1` reads
the authoritative `"NT.100"` even though the previous state held the
uncommitted pending value `"uncommitted"`. -/
theorem dataEffect_reinitializes_witness :
    findRec dataW "m1" = some
      ⟨"m1", [("name", "Shoyu Ramen"), ("price", "NT.100"), ("description", "Classic")]⟩ ∧
    (dataW.map Rec.id).Nodup ∧
    "price" ∈ menuColsEn.map Column.key ∧
    valueOf (applyDataEffect
        ⟨[getCellKey "m1" "price"], [(getCellKey "m1" "price", "uncommitted")], [], false, []⟩
        dataW menuColsEn).cellValues (getCellKey "m1" "price")
      = getField ⟨"m1", [("name", "Shoyu Ramen"), ("price", "NT.100"), ("description", "Classic")]⟩ "price" :=
  ⟨by decide, by decide, by decide,
   (dataEffect_reinitializes
      ⟨[getCellKey "m1" "price"], [(getCellKey "m1" "price", "uncommitted")], [], false, []⟩
      ⟨[], [], [], false, []⟩ dataW menuColsEn "m1" "price"
      ⟨"m1", [("name", "Shoyu Ramen"), ("price", "NT.100"), ("description", "Classic")]⟩
      (by decide) (by decide) (by decide) (by decide)).1⟩

theorem cancelEdit_loadingCells (items : List Rec) (st : TableState)
    (id field : String) :
    (cancelEdit items st id field).table.loadingCells = st.loadingCells := by
  cases h : findRec items id <;> simp [cancelEdit, h]

theorem inv_preserved {s s' : Sys} (hInv : Inv s) (hstep : Step s s') : Inv s' := by
  obtain ⟨hnd, hsub⟩ := hInv
  cases hstep with
  | startEdit id field => exact ⟨hnd, hsub⟩
  | change id field v hnl => exact ⟨hnd, hsub⟩
  | cancel id field hnl =>
    refine ⟨hnd, ?_⟩
    intro k hk
    show k ∈ (cancelEdit s.items s.table id field).table.loadingCells
    rw [cancelEdit_loadingCells]
    exact hsub k hk
  | commitStart id field hnl hv =>
    constructor
    · exact List.nodup_cons.mpr ⟨fun hk => hnl (hsub _ hk), hnd⟩
    · intro k hk
      rcases List.mem_cons.mp hk with rfl | hk2
      · exact mem_setInsert_self _ _
      · exact mem_setInsert_of_mem _ (hsub _ hk2)
  | commitInvalid id field hnl hv => exact ⟨hnd, hsub⟩
  | commitResolveOk id field u hin =>
    refine ⟨hnd.erase _, ?_⟩
    intro k hk
    obtain ⟨hne, hk2⟩ := hnd.mem_erase_iff.mp hk
    exact (List.mem_erase_of_ne hne).mpr (hsub _ hk2)
  | commitResolveErr id field hin =>
    refine ⟨hnd.erase _, ?_⟩
    intro k hk
    obtain ⟨hne, hk2⟩ := hnd.mem_erase_iff.mp hk
    exact (List.mem_erase_of_ne hne).mpr (hsub _ hk2)

theorem reachable_inv {s : Sys} (h : Reachable s) : Inv s := by
  induction h with
  | init data cols => exact ⟨List.nodup_nil, by simp [initTable]⟩
  | step hr hs ih => exact inv_preserved ih hs

/-- C3: in every state reachable by the cell-editing events (whose
commit events carry the guards enforced by `renderCell` disabling the
cell's controls while it is loading), each cell key has at most one
in-flight persistence update; moreover every in-flight cell is marked
loading, so its save control is disabled and a second commit on it
cannot start. -/
theorem commit_inflight_at_most_one (s : Sys) (h : Reachable s) :
    (∀ k, s.inflight.count k ≤ 1) ∧
    ∀ k ∈ s.inflight, k ∈ s.table.loadingCells := by
  obtain ⟨hnd, hsub⟩ := reachable_inv h
  exact ⟨List.nodup_iff_count_le_one.mp hnd, hsub⟩

/-- Witness for C3: the reachable state `sysW1`, in which one commit on
the price cell of `m1` is outstanding. -/
theorem commit_inflight_at_most_one_witness :
    (∀ k, sysW1.inflight.count k ≤ 1) ∧
    ∀ k ∈ sysW1.inflight, k ∈ sysW1.table.loadingCells :=
  commit_inflight_at_most_one sysW1
    (Reachable.step (Reachable.init dataW menuColsEn)
      (Step.commitStart sysW0 "m1" "price" (by decide) (by decide)))

end Chatbot
